import Mathlib

/-!
# Pad-Avan: Swiss-German keyboard layout translator (`KeyboardLayoutWinCH.h`)

A shallow embedding of `KeyboardLayoutWinCH` and of the calls it makes on the
`USBHIDKeyboard` sink.  The sink is modelled by the trace of calls it receives
(`press`, `releaseAll`, `print`) interleaved with the blocking `delay` calls.

Character model of `write`: a `char` of the source is one byte (`Byte`), and the
`String` passed to `write` is its buffer of bytes, visited one byte per loop
pass.  The source file is encoded in UTF-8, so a character literal with a
non-ASCII character between the quotes holds two or three bytes and is a
multi-character constant of type `int` (`'ä'` is `0xC3A4`); `charLit` gives the
value of a literal, and a comparison `c == 'ä'` of the source is the comparison
of the byte `c` with that value.  A text written as a Lean string stands for the
buffer holding its UTF-8 encoding; single bytes of other encodings are given as
buffers directly.

`pressKey` compares whole names with ASCII literals and is modelled on Lean
strings.  Key codes passed to `press` and bytes passed to `print` are natural
numbers.
-/

namespace PadAvan

/-! ## Key codes (`#define KEY_*`) -/

def KEY_LEFT_CTRL : Nat := 0x80
def KEY_LEFT_SHIFT : Nat := 0x81
def KEY_LEFT_ALT : Nat := 0x82
def KEY_LEFT_GUI : Nat := 0x83
def KEY_RIGHT_CTRL : Nat := 0x84
def KEY_RIGHT_SHIFT : Nat := 0x85
def KEY_RIGHT_ALT : Nat := 0x86
def KEY_RIGHT_GUI : Nat := 0x87

/-! ## The HID sink as a trace of calls -/

/-- One call observed by the outside world: a call on the keyboard object or a
blocking `delay(ms)`. -/
inductive Event where
  | press (code : Nat)
  | releaseAll
  | print (c : Nat)
  | delay (ms : Nat)
  deriving DecidableEq, Repr

/-- Code of a character passed to `press(uint8_t)`. -/
def code (c : Char) : Nat := c.toNat

/-! ## Bytes, UTF-8 and character literals -/

/-- A `char` of the source: one byte, given by its value `0`..`255`.  Every
literal a `char` is compared with is an ASCII code or a constant above 255, and
`print` receives the byte, so the traces are the same whether `char` is signed
or unsigned. -/
abbrev Byte := Fin 256

/-- The byte with the value `n` modulo 256. -/
def toByte (n : Nat) : Byte := ⟨n % 256, Nat.mod_lt n (by decide)⟩

/-- The UTF-8 encoding of one character: one to four bytes. -/
def utf8EncodeChar (c : Char) : List Byte :=
  let v := c.toNat
  if v < 0x80 then [toByte v]
  else if v < 0x800 then [toByte (0xC0 + v / 0x40), toByte (0x80 + v % 0x40)]
  else if v < 0x10000 then
    [toByte (0xE0 + v / 0x1000), toByte (0x80 + v / 0x40 % 0x40), toByte (0x80 + v % 0x40)]
  else
    [toByte (0xF0 + v / 0x40000), toByte (0x80 + v / 0x1000 % 0x40),
      toByte (0x80 + v / 0x40 % 0x40), toByte (0x80 + v % 0x40)]

/-- The UTF-8 encoding of a list of characters. -/
def utf8List : List Char → List Byte
  | [] => []
  | c :: cs => utf8EncodeChar c ++ utf8List cs

/-- The buffer of a text held in UTF-8. -/
def utf8Bytes (s : String) : List Byte := utf8List s.data

/-- The value of the character literal whose quotes enclose `s` in the UTF-8
source file: the bytes read as one base-256 number.  One byte gives the code of
the character; two or three bytes give a multi-character `int` constant. -/
def charLit (s : String) : Nat := (utf8Bytes s).foldl (fun acc b => acc * 256 + b.val) 0

/-! ## Private helpers of `KeyboardLayoutWinCH` -/

/-- `pressAltGr(key)`: AltGr, the key, then a full release. -/
def pressAltGr (key : Char) : List Event :=
  [Event.press KEY_RIGHT_ALT, Event.press (code key), Event.releaseAll]

/-- `pressShiftAltGr(key)`: Shift, AltGr, the key, then a full release. -/
def pressShiftAltGr (key : Char) : List Event :=
  [Event.press KEY_LEFT_SHIFT, Event.press KEY_RIGHT_ALT, Event.press (code key),
    Event.releaseAll]

/-- `isSwissSpecialChar(c)`: the seventeen-way disjunction of the source, each
test comparing the byte with the value of the literal. -/
def isSwissSpecialChar (c : Byte) : Bool :=
  c.val == charLit "ä" || c.val == charLit "ö" || c.val == charLit "ü" ||
  c.val == charLit "Ä" || c.val == charLit "Ö" || c.val == charLit "Ü" ||
  c.val == charLit "€" || c.val == charLit "@" || c.val == charLit "§" ||
  c.val == charLit "|" ||
  c.val == charLit "é" || c.val == charLit "è" || c.val == charLit "à" ||
  c.val == charLit "É" || c.val == charLit "È" || c.val == charLit "À" ||
  c.val == charLit "Ç"

/-- `typeSwissChar(c)`: the `switch` of the source, one branch per `case` label
(the value of its literal), the `default` branch doing nothing. -/
def typeSwissChar (c : Byte) : List Event :=
  if c.val = charLit "@" then pressAltGr '2'
  else if c.val = charLit "§" then pressAltGr '3'
  else if c.val = charLit "|" then pressAltGr '7'
  else if c.val = charLit "€" then pressAltGr 'e'
  else if c.val = charLit "é" then
    pressAltGr 'e' ++ [Event.delay 10] ++ [Event.press (code '2'), Event.releaseAll]
  else if c.val = charLit "è" then pressAltGr '\x60'
  else if c.val = charLit "à" then pressAltGr 'a'
  else if c.val = charLit "É" then
    pressShiftAltGr 'e' ++ [Event.delay 10] ++
      [Event.press KEY_LEFT_SHIFT, Event.press (code '2'), Event.releaseAll]
  else if c.val = charLit "È" then pressShiftAltGr '\x60'
  else if c.val = charLit "À" then pressShiftAltGr 'a'
  else if c.val = charLit "Ç" then pressShiftAltGr 'c'
  else []

/-! ## Arduino `String` primitives used by `pressKey` -/

/-- `String::operator[]`: the character at `index`, NUL when out of range. -/
def charAt (s : String) (index : Nat) : Char := s.data.getD index '\x00'

/-- `String::toUpperCase()`: `toupper` on every character (ASCII `a`-`z` only). -/
def toUpperCase (s : String) : String := ⟨s.data.map Char.toUpper⟩

/-! ## `write` -/

/-- `text[i]` on the buffer of `write`: the byte at `index`, NUL when out of
range. -/
def bufferAt (text : List Byte) (index : Nat) : Byte := text.getD index 0

/-- Body of the `for` loop of `write` for the byte `c`; each `continue` of the
source ends a branch, and `print` receives the byte it is given. -/
def writeChar (c : Byte) : List Event :=
  if isSwissSpecialChar c then typeSwissChar c ++ [Event.delay 10]
  else if c.val = charLit "z" ∨ c.val = charLit "Z" then
    [Event.print (if c.val = charLit "z" then code 'y' else code 'Y'), Event.delay 5]
  else if c.val = charLit "y" ∨ c.val = charLit "Y" then
    [Event.print (if c.val = charLit "y" then code 'z' else code 'Z'), Event.delay 5]
  else if c.val = charLit "ä" then
    [Event.press (code '\x27'), Event.releaseAll, Event.delay 5]
  else if c.val = charLit "Ä" then
    [Event.press KEY_LEFT_SHIFT, Event.press (code '\x27'), Event.releaseAll, Event.delay 5]
  else if c.val = charLit "ö" then
    [Event.press (code ';'), Event.releaseAll, Event.delay 5]
  else if c.val = charLit "Ö" then
    [Event.press KEY_LEFT_SHIFT, Event.press (code ';'), Event.releaseAll, Event.delay 5]
  else if c.val = charLit "ü" then
    [Event.press (code '['), Event.releaseAll, Event.delay 5]
  else if c.val = charLit "Ü" then
    [Event.press KEY_LEFT_SHIFT, Event.press (code '['), Event.releaseAll, Event.delay 5]
  else if c.val = charLit "-" then
    [Event.press (code '/'), Event.releaseAll, Event.delay 5]
  else if c.val = charLit "_" then
    [Event.press KEY_LEFT_SHIFT, Event.press (code '/'), Event.releaseAll, Event.delay 5]
  else if c.val = charLit ":" then
    [Event.press KEY_LEFT_SHIFT, Event.press (code '.'), Event.releaseAll, Event.delay 5]
  else if c.val = charLit ";" then
    [Event.press KEY_LEFT_SHIFT, Event.press (code ','), Event.releaseAll, Event.delay 5]
  else [Event.print c.val, Event.delay 5]

/-- The `for (i = 0; i < text.length(); i++)` loop of `write` over the buffer,
from index `i`: one pass per byte. -/
def writeLoop (text : List Byte) (i : Nat) : List Event :=
  if i < text.length then writeChar (bufferAt text i) ++ writeLoop text (i + 1) else []
termination_by text.length - i

/-- `write(text)` on the buffer `text`: the trace of sink calls and delays. -/
def writeBuffer (text : List Byte) : List Event := writeLoop text 0

/-- `write(text)` for a text held in UTF-8. -/
def write (text : String) : List Event := writeBuffer (utf8Bytes text)

/-! ## `pressKey` -/

/-- `pressKey(keyName)`: the name is uppercased, then compared against each
literal in source order; the first match presses one code and returns, and a
name that matches nothing falls off the end of the function. -/
def pressKey (keyName : String) : List Event :=
  let keyName := toUpperCase keyName
  if keyName = "F1" then [Event.press 0xC2, Event.releaseAll]
  else if keyName = "F2" then [Event.press 0xC3, Event.releaseAll]
  else if keyName = "F3" then [Event.press 0xC4, Event.releaseAll]
  else if keyName = "F4" then [Event.press 0xC5, Event.releaseAll]
  else if keyName = "F5" then [Event.press 0xC6, Event.releaseAll]
  else if keyName = "F6" then [Event.press 0xC7, Event.releaseAll]
  else if keyName = "F7" then [Event.press 0xC8, Event.releaseAll]
  else if keyName = "F8" then [Event.press 0xC9, Event.releaseAll]
  else if keyName = "F9" then [Event.press 0xCA, Event.releaseAll]
  else if keyName = "F10" then [Event.press 0xCB, Event.releaseAll]
  else if keyName = "F11" then [Event.press 0xCC, Event.releaseAll]
  else if keyName = "F12" then [Event.press 0xCD, Event.releaseAll]
  else if keyName = "ESCAPE" ∨ keyName = "ESC" then [Event.press 0xB1, Event.releaseAll]
  else if keyName = "ENTER" then [Event.press 0xB0, Event.releaseAll]
  else if keyName = "TAB" then [Event.press 0xB3, Event.releaseAll]
  else if keyName = "SPACE" ∨ keyName = "SPACEBAR" then
    [Event.press (code ' '), Event.releaseAll]
  else if keyName = "BACKSPACE" then [Event.press 0xB2, Event.releaseAll]
  else if keyName = "DELETE" ∨ keyName = "DEL" then [Event.press 0xD4, Event.releaseAll]
  else if keyName = "HOME" then [Event.press 0xD2, Event.releaseAll]
  else if keyName = "END" then [Event.press 0xD5, Event.releaseAll]
  else if keyName = "PAGE UP" ∨ keyName = "PAGEUP" then [Event.press 0xD3, Event.releaseAll]
  else if keyName = "PAGE DOWN" ∨ keyName = "PAGEDOWN" then
    [Event.press 0xD6, Event.releaseAll]
  else if keyName = "ARROW UP" ∨ keyName = "UP" ∨ keyName = "UP_ARROW" then
    [Event.press 0xDA, Event.releaseAll]
  else if keyName = "ARROW DOWN" ∨ keyName = "DOWN" ∨ keyName = "DOWN_ARROW" then
    [Event.press 0xD9, Event.releaseAll]
  else if keyName = "ARROW LEFT" ∨ keyName = "LEFT" ∨ keyName = "LEFT_ARROW" then
    [Event.press 0xD8, Event.releaseAll]
  else if keyName = "ARROW RIGHT" ∨ keyName = "RIGHT" ∨ keyName = "RIGHT_ARROW" then
    [Event.press 0xD7, Event.releaseAll]
  else if keyName = "WINDOWS KEY" ∨ keyName = "WINDOWS" ∨ keyName = "WIN" then
    [Event.press 0x83, Event.releaseAll]
  else if keyName = "MENU KEY" ∨ keyName = "MENU" ∨ keyName = "APPLICATION" then
    [Event.press 0xED, Event.releaseAll]
  else if keyName.length = 1 ∧ 'A' ≤ charAt keyName 0 ∧ charAt keyName 0 ≤ 'Z' then
    [Event.press (code (charAt keyName 0)), Event.releaseAll]
  else if keyName = "0" then [Event.press (code '0'), Event.releaseAll]
  else if keyName = "1" then [Event.press (code '1'), Event.releaseAll]
  else if keyName = "2" then [Event.press (code '2'), Event.releaseAll]
  else if keyName = "3" then [Event.press (code '3'), Event.releaseAll]
  else if keyName = "4" then [Event.press (code '4'), Event.releaseAll]
  else if keyName = "5" then [Event.press (code '5'), Event.releaseAll]
  else if keyName = "6" then [Event.press (code '6'), Event.releaseAll]
  else if keyName = "7" then [Event.press (code '7'), Event.releaseAll]
  else if keyName = "8" then [Event.press (code '8'), Event.releaseAll]
  else if keyName = "9" then [Event.press (code '9'), Event.releaseAll]
  else []

/-! ## Held keys of the sink -/

/-- Modelled from the spec: the `USBHIDKeyboard` sink is an external library;
its contract is that `press` registers a key as held until `releaseAll`,
`releaseAll` clears every held key, and `print` is a self-contained
press-then-release.  `sinkStep held e` is the held-key set after the call `e`. -/
def sinkStep (held : List Nat) : Event → List Nat
  | Event.press k => if k ∈ held then held else k :: held
  | Event.releaseAll => []
  | Event.print _ => held
  | Event.delay _ => held

/-- Held-key set after a whole trace, starting from `held`. -/
def heldAfter (held : List Nat) (es : List Event) : List Nat := es.foldl sinkStep held

/-! ## Observations on traces -/

/-- Whether the event is a call on the keyboard (anything but a `delay`). -/
def Event.isKeyEvent : Event → Bool
  | Event.delay _ => false
  | _ => true

/-- The calls made on the keyboard, delays dropped. -/
def keyEvents (es : List Event) : List Event := es.filter Event.isKeyEvent

/-- Whether the event types something: a `press` or a `print`. -/
def Event.isKeyDown : Event → Bool
  | Event.press _ => true
  | Event.print _ => true
  | _ => false

/-! ## Reference notions the claims are stated against -/

/-- The y/z transposition as the spec words it: `z` and `y` trade places in
either case, every other character is left alone. -/
def swapYZ (c : Char) : Char :=
  if c = 'z' then 'y' else if c = 'Z' then 'Y'
  else if c = 'y' then 'z' else if c = 'Y' then 'Z' else c

/-- The literal names `pressKey` compares against before the single-letter test. -/
def namedKeyNames : List String :=
  ["F1", "F2", "F3", "F4", "F5", "F6", "F7", "F8", "F9", "F10", "F11", "F12",
    "ESCAPE", "ESC", "ENTER", "TAB", "SPACE", "SPACEBAR", "BACKSPACE", "DELETE", "DEL",
    "HOME", "END", "PAGE UP", "PAGEUP", "PAGE DOWN", "PAGEDOWN",
    "ARROW UP", "UP", "UP_ARROW", "ARROW DOWN", "DOWN", "DOWN_ARROW",
    "ARROW LEFT", "LEFT", "LEFT_ARROW", "ARROW RIGHT", "RIGHT", "RIGHT_ARROW",
    "WINDOWS KEY", "WINDOWS", "WIN", "MENU KEY", "MENU", "APPLICATION"]

/-- The one-digit names `pressKey` compares against after the single-letter test. -/
def digitKeyNames : List String := ["0", "1", "2", "3", "4", "5", "6", "7", "8", "9"]

/-- An uppercased name matches an entry of the NamedKey table: it is one of the
literal names, a single letter `A`-`Z`, or a single digit. -/
def matchesNamedKey (u : String) : Prop :=
  u ∈ namedKeyNames ∨ (u.length = 1 ∧ 'A' ≤ charAt u 0 ∧ charAt u 0 ≤ 'Z') ∨
    u ∈ digitKeyNames

/-- A trace that is one key step: a single `press` closed by `releaseAll`. -/
def IsOneKeyStep (es : List Event) : Prop := ∃ k : Nat, es = [Event.press k, Event.releaseAll]

/-- The single byte of a character in ISO 8859-1 (code points below 256). -/
def latin1 (c : Char) : Byte := toByte c.toNat

/-- The trace of the loop body over a list of bytes, in order. -/
def writeList : List Byte → List Event
  | [] => []
  | c :: cs => writeChar c ++ writeList cs

/-- The codes pressed in a trace, in order. -/
def pressedCodes : List Event → List Nat
  | [] => []
  | Event.press k :: es => k :: pressedCodes es
  | _ :: es => pressedCodes es

/-- The delays of a trace, in order, in milliseconds. -/
def delays : List Event → List Nat
  | [] => []
  | Event.delay ms :: es => ms :: delays es
  | _ :: es => delays es

/-- An uppercased name for which `pressKey` passes a character to `press`:
`SPACE`, `SPACEBAR`, a single letter `A`-`Z`, or a single digit. -/
def isPrintableName (u : String) : Prop :=
  u = "SPACE" ∨ u = "SPACEBAR" ∨ (u.length = 1 ∧ 'A' ≤ charAt u 0 ∧ charAt u 0 ≤ 'Z') ∨
    u ∈ digitKeyNames

/-- The SimpleRemap and ShiftedRemap characters of the spec. -/
def remapChars : List Char := ['ä', 'Ä', 'ö', 'Ö', 'ü', 'Ü', '-', '_', ':', ';']

/-- A modifier code: the range `0x80`..`0x87` of the `KEY_*` constants. -/
def isModifier (k : Nat) : Bool := decide (KEY_LEFT_CTRL ≤ k) && decide (k ≤ KEY_RIGHT_GUI)

/-- The shape of one key step: an optional Shift, then an optional AltGr, then
exactly one code that is not a modifier. -/
def goodRun : List Nat → Bool
  | [k] => !isModifier k
  | [m, k] => (m == KEY_LEFT_SHIFT || m == KEY_RIGHT_ALT) && !isModifier k
  | [m, a, k] => m == KEY_LEFT_SHIFT && a == KEY_RIGHT_ALT && !isModifier k
  | _ => false

/-- Scan of a trace with the codes of the current run of consecutive presses in
`run`: a run must be closed by `releaseAll` right after its last press and must
have the shape `goodRun`; a run cut by a print, a delay or the end of the trace
is rejected. -/
def scanSteps (run : List Nat) : List Event → Bool
  | [] => run.isEmpty
  | Event.press k :: es => scanSteps (run ++ [k]) es
  | Event.releaseAll :: es => (run.isEmpty || goodRun run) && scanSteps [] es
  | Event.print _ :: es => run.isEmpty && scanSteps [] es
  | Event.delay _ :: es => run.isEmpty && scanSteps [] es

/-- Every maximal run of presses of the trace is a well-shaped, closed key step. -/
def stepsWellFormed (es : List Event) : Bool := scanSteps [] es

/-- Whether the event is a delay or a print. -/
def Event.isDelayOrPrint : Event → Bool
  | Event.delay _ => true
  | Event.print _ => true
  | _ => false

/-- Scan of a trace from the held set `held`: no key is held when a delay or a
print happens. -/
def calmAtDelayPrint (held : List Nat) : List Event → Bool
  | [] => true
  | e :: es => (!e.isDelayOrPrint || held.isEmpty) && calmAtDelayPrint (sinkStep held e) es

/-- Whether the event is a `press`. -/
def Event.isPress : Event → Bool
  | Event.press _ => true
  | _ => false

/-- The trace is not empty and its last event is not a `press`. -/
def endsQuiet : List Event → Bool
  | [] => false
  | [e] => !e.isPress
  | _ :: es => endsQuiet es

/-! ## `DisplayHandler` (`DisplayHandler.h`) -/

/-- `SSD1306_WHITE` of the Adafruit header. -/
def SSD1306_WHITE : Nat := 1

/-- `SSD1306_SWITCHCAPVCC` of the Adafruit header. -/
def SSD1306_SWITCHCAPVCC : Nat := 2

/-- A call made by `DisplayHandler` on a collaborator: on the underlying
`Adafruit_SSD1306` object `display`, or on the I2C bus `Wire`. -/
inductive DisplayCall where
  | displayBegin (vcc : Nat) (addr : Nat)
  | clearDisplay
  | setTextSize (size : Nat)
  | setTextColor (color : Nat)
  | setCursor (x : Int) (y : Int)
  | print (text : String)
  | println (text : String)
  | display
  | wireRequestFrom (addr : Nat) (quantity : Nat) (stop : Bool)
  | wireRead
  deriving DecidableEq, Repr

/-- Whether the call is made on the underlying display object. -/
def DisplayCall.onDisplay : DisplayCall → Bool
  | DisplayCall.wireRequestFrom _ _ _ => false
  | DisplayCall.wireRead => false
  | _ => true

/-- The calls of a trace made on the underlying display object. -/
def displayCalls (cs : List DisplayCall) : List DisplayCall := cs.filter DisplayCall.onDisplay

/-- The member variables of `DisplayHandler` that change or are read; the
`display` pointer is fixed at construction. -/
structure DisplayHandler where
  oledAddress : Nat
  isAvailable : Bool
  isEnabled : Bool
  deriving DecidableEq, Repr

namespace DisplayHandler

/-- The constructor: not available until `begin` succeeds, enabled. -/
def create (address : Nat) : DisplayHandler :=
  { oledAddress := address, isAvailable := false, isEnabled := true }

/-- `begin()`; `beginOk` is what `display->begin(...)` returns. -/
def begin (h : DisplayHandler) (beginOk : Bool) : Bool × DisplayHandler × List DisplayCall :=
  if !beginOk then
    (false, { h with isAvailable := false },
      [DisplayCall.displayBegin SSD1306_SWITCHCAPVCC h.oledAddress])
  else
    (true, { h with isAvailable := true },
      [DisplayCall.displayBegin SSD1306_SWITCHCAPVCC h.oledAddress])

/-- `available()`. -/
def available (h : DisplayHandler) : Bool := h.isAvailable

/-- `setEnabled(enabled)`. -/
def setEnabled (h : DisplayHandler) (enabled : Bool) : DisplayHandler × List DisplayCall :=
  ({ h with isEnabled := enabled }, [])

/-- `getEnabled()`. -/
def getEnabled (h : DisplayHandler) : Bool := h.isEnabled

/-- `checkConnection()`; `wireAvailable` is what `Wire.available()` returns after
the request. -/
def checkConnection (h : DisplayHandler) (wireAvailable : Int) :
    Bool × DisplayHandler × List DisplayCall :=
  if !h.isAvailable then (false, h, [])
  else if wireAvailable = 0 then
    (false, { h with isAvailable := false }, [DisplayCall.wireRequestFrom h.oledAddress 1 true])
  else
    (true, h, [DisplayCall.wireRequestFrom h.oledAddress 1 true, DisplayCall.wireRead])

def clearDisplay (h : DisplayHandler) : DisplayHandler × List DisplayCall :=
  if h.isAvailable && h.isEnabled then (h, [DisplayCall.clearDisplay]) else (h, [])

def setTextSizeDirect (h : DisplayHandler) (size : Nat) : DisplayHandler × List DisplayCall :=
  if h.isAvailable && h.isEnabled then (h, [DisplayCall.setTextSize size]) else (h, [])

def setTextColorDirect (h : DisplayHandler) (color : Nat) : DisplayHandler × List DisplayCall :=
  if h.isAvailable && h.isEnabled then (h, [DisplayCall.setTextColor color]) else (h, [])

def setCursorDirect (h : DisplayHandler) (x y : Int) : DisplayHandler × List DisplayCall :=
  if h.isAvailable && h.isEnabled then (h, [DisplayCall.setCursor x y]) else (h, [])

def printlnDirect (h : DisplayHandler) (text : String) : DisplayHandler × List DisplayCall :=
  if h.isAvailable && h.isEnabled then (h, [DisplayCall.println text]) else (h, [])

def displayUpdate (h : DisplayHandler) : DisplayHandler × List DisplayCall :=
  if h.isAvailable && h.isEnabled then (h, [DisplayCall.display]) else (h, [])

def clear (h : DisplayHandler) : DisplayHandler × List DisplayCall :=
  if h.isAvailable && h.isEnabled then (h, [DisplayCall.clearDisplay]) else (h, [])

def setTextSize (h : DisplayHandler) (size : Nat) : DisplayHandler × List DisplayCall :=
  if h.isAvailable && h.isEnabled then (h, [DisplayCall.setTextSize size]) else (h, [])

def setTextColor (h : DisplayHandler) (color : Nat) : DisplayHandler × List DisplayCall :=
  if h.isAvailable && h.isEnabled then (h, [DisplayCall.setTextColor color]) else (h, [])

def setCursor (h : DisplayHandler) (x y : Int) : DisplayHandler × List DisplayCall :=
  if h.isAvailable && h.isEnabled then (h, [DisplayCall.setCursor x y]) else (h, [])

def print (h : DisplayHandler) (text : String) : DisplayHandler × List DisplayCall :=
  if h.isAvailable && h.isEnabled then (h, [DisplayCall.print text]) else (h, [])

def println (h : DisplayHandler) (text : String) : DisplayHandler × List DisplayCall :=
  if h.isAvailable && h.isEnabled then (h, [DisplayCall.println text]) else (h, [])

def update (h : DisplayHandler) : DisplayHandler × List DisplayCall :=
  if h.isAvailable && h.isEnabled then (h, [DisplayCall.display]) else (h, [])

/-- `showMessage(message)`: return when disabled or unavailable, return when the
connection check fails, otherwise draw the message. -/
def showMessage (h : DisplayHandler) (message : String) (wireAvailable : Int) :
    DisplayHandler × List DisplayCall :=
  if !h.isEnabled || !h.isAvailable then (h, [])
  else
    let r := h.checkConnection wireAvailable
    if !r.1 then (r.2.1, r.2.2)
    else
      (r.2.1, r.2.2 ++
        [DisplayCall.clearDisplay, DisplayCall.setTextSize 2,
          DisplayCall.setTextColor SSD1306_WHITE, DisplayCall.setCursor 10 10,
          DisplayCall.println message, DisplayCall.display])

/-- `clearAndUpdate()`. -/
def clearAndUpdate (h : DisplayHandler) : DisplayHandler × List DisplayCall :=
  if h.isAvailable && h.isEnabled then (h, [DisplayCall.clearDisplay, DisplayCall.display]) else (h, [])

end DisplayHandler

/-- A call of a public method of `DisplayHandler` other than `begin`, with its
arguments and, where the method reads the bus, what `Wire.available()` returns. -/
inductive DisplayOp where
  | available
  | setEnabled (enabled : Bool)
  | getEnabled
  | checkConnection (wireAvailable : Int)
  | clearDisplay
  | setTextSizeDirect (size : Nat)
  | setTextColorDirect (color : Nat)
  | setCursorDirect (x : Int) (y : Int)
  | printlnDirect (text : String)
  | displayUpdate
  | clear
  | setTextSize (size : Nat)
  | setTextColor (color : Nat)
  | setCursor (x : Int) (y : Int)
  | print (text : String)
  | println (text : String)
  | update
  | showMessage (message : String) (wireAvailable : Int)
  | clearAndUpdate

/-- State and calls of one method call. -/
def DisplayHandler.step (h : DisplayHandler) : DisplayOp → DisplayHandler × List DisplayCall
  | DisplayOp.available => (h, [])
  | DisplayOp.setEnabled b => h.setEnabled b
  | DisplayOp.getEnabled => (h, [])
  | DisplayOp.checkConnection w => (h.checkConnection w).2
  | DisplayOp.clearDisplay => h.clearDisplay
  | DisplayOp.setTextSizeDirect n => h.setTextSizeDirect n
  | DisplayOp.setTextColorDirect c => h.setTextColorDirect c
  | DisplayOp.setCursorDirect x y => h.setCursorDirect x y
  | DisplayOp.printlnDirect t => h.printlnDirect t
  | DisplayOp.displayUpdate => h.displayUpdate
  | DisplayOp.clear => h.clear
  | DisplayOp.setTextSize n => h.setTextSize n
  | DisplayOp.setTextColor c => h.setTextColor c
  | DisplayOp.setCursor x y => h.setCursor x y
  | DisplayOp.print t => h.print t
  | DisplayOp.println t => h.println t
  | DisplayOp.update => h.update
  | DisplayOp.showMessage m w => h.showMessage m w
  | DisplayOp.clearAndUpdate => h.clearAndUpdate

/-- State and calls of a sequence of method calls, in order. -/
def DisplayHandler.run (h : DisplayHandler) : List DisplayOp → DisplayHandler × List DisplayCall
  | [] => (h, [])
  | op :: ops =>
    let r := h.step op
    let rs := DisplayHandler.run r.1 ops
    (rs.1, r.2 ++ rs.2)

/-! ## The loop of `write` visits the bytes in order -/

theorem bufferAt_eq_get (text : List Byte) (i : Nat) (h : i < text.length) :
    bufferAt text i = text.get ⟨i, h⟩ := by
  unfold bufferAt
  simp [List.getD_eq_getElem?_getD, List.getElem?_eq_getElem h]

theorem writeLoop_eq_writeList (text : List Byte) :
    ∀ (n i : Nat), text.length - i = n → writeLoop text i = writeList (text.drop i) := by
  intro n
  induction n with
  | zero =>
    intro i hi
    have hlen : text.length ≤ i := by omega
    rw [writeLoop, if_neg (by omega), List.drop_of_length_le hlen]
    rfl
  | succ n ih =>
    intro i hi
    have hlt : i < text.length := by omega
    rw [writeLoop, if_pos hlt, ih (i + 1) (by omega), bufferAt_eq_get text i hlt,
      List.drop_eq_getElem_cons hlt]
    rfl

theorem writeBuffer_eq_writeList (text : List Byte) : writeBuffer text = writeList text := by
  unfold writeBuffer
  rw [writeLoop_eq_writeList text (text.length - 0) 0 rfl]
  rfl

theorem write_eq_writeList (text : String) : write text = writeList (utf8Bytes text) :=
  writeBuffer_eq_writeList (utf8Bytes text)

theorem writeList_append (xs ys : List Byte) :
    writeList (xs ++ ys) = writeList xs ++ writeList ys := by
  induction xs with
  | nil => rfl
  | cons c cs ih => simp [writeList, ih]

theorem utf8List_append (xs ys : List Char) :
    utf8List (xs ++ ys) = utf8List xs ++ utf8List ys := by
  induction xs with
  | nil => rfl
  | cons c cs ih => simp [utf8List, ih]

theorem utf8Bytes_append (s t : String) : utf8Bytes (s ++ t) = utf8Bytes s ++ utf8Bytes t := by
  unfold utf8Bytes
  rw [String.data_append, utf8List_append]

theorem utf8Bytes_singleton (c : Char) : utf8Bytes (String.singleton c) = utf8EncodeChar c := by
  simp [utf8Bytes, String.singleton, utf8List]

theorem utf8EncodeChar_ascii (c : Char) (h : c.toNat < 128) :
    utf8EncodeChar c = [toByte c.toNat] := by
  unfold utf8EncodeChar
  simp only
  rw [if_pos h]

theorem utf8EncodeChar_ne_nil (c : Char) : utf8EncodeChar c ≠ [] := by
  unfold utf8EncodeChar
  simp only
  split_ifs <;> simp

theorem write_singleton (c : Char) : write (String.singleton c) = writeList (utf8EncodeChar c) := by
  rw [write_eq_writeList, utf8Bytes_singleton]

theorem write_singleton_ascii (c : Char) (h : c.toNat < 128) :
    write (String.singleton c) = writeChar (toByte c.toNat) := by
  rw [write_singleton, utf8EncodeChar_ascii c h]
  simp [writeList]

theorem writeBuffer_singleton (c : Byte) : writeBuffer [c] = writeChar c := by
  rw [writeBuffer_eq_writeList]
  simp [writeList]

/-! ## What the loop body does for each of the 256 bytes -/

set_option maxRecDepth 100000 in
theorem charLit_values :
    charLit "ä" = 0xC3A4 ∧ charLit "ö" = 0xC3B6 ∧ charLit "ü" = 0xC3BC ∧
    charLit "Ä" = 0xC384 ∧ charLit "Ö" = 0xC396 ∧ charLit "Ü" = 0xC39C ∧
    charLit "€" = 0xE282AC ∧ charLit "@" = 0x40 ∧ charLit "§" = 0xC2A7 ∧
    charLit "|" = 0x7C ∧ charLit "é" = 0xC3A9 ∧ charLit "è" = 0xC3A8 ∧
    charLit "à" = 0xC3A0 ∧ charLit "É" = 0xC389 ∧ charLit "È" = 0xC388 ∧
    charLit "À" = 0xC380 ∧ charLit "Ç" = 0xC387 := by
  decide

set_option maxRecDepth 100000 in
theorem isSwissSpecialChar_iff :
    ∀ c : Byte, isSwissSpecialChar c = true ↔ (c.val = code '@' ∨ c.val = code '|') := by
  decide

set_option maxRecDepth 100000 in
theorem typeSwissChar_eq :
    ∀ c : Byte, typeSwissChar c =
      if c.val = code '@' then pressAltGr '2'
      else if c.val = code '|' then pressAltGr '7' else [] := by
  decide

set_option maxRecDepth 100000 in
theorem writeChar_facts :
    ∀ c : Byte,
      heldAfter [] (writeChar c) = [] ∧ scanSteps [] (writeChar c) = true ∧
      endsQuiet (writeChar c) = true ∧ calmAtDelayPrint [] (writeChar c) = true ∧
      (writeChar c).any Event.isKeyDown = true := by
  decide

set_option maxRecDepth 100000 in
theorem writeChar_delays :
    ∀ c : Byte,
      delays (writeChar c) = [if c.val = code '@' ∨ c.val = code '|' then 10 else 5] ∧
      (writeChar c).getLast? =
        some (Event.delay (if c.val = code '@' ∨ c.val = code '|' then 10 else 5)) := by
  decide

theorem heldAfter_nil (held : List Nat) : heldAfter held [] = held := rfl

theorem heldAfter_cons (held : List Nat) (e : Event) (es : List Event) :
    heldAfter held (e :: es) = heldAfter (sinkStep held e) es := rfl

theorem sinkStep_releaseAll (held : List Nat) : sinkStep held Event.releaseAll = [] := rfl

theorem sinkStep_print (held : List Nat) (c : Nat) : sinkStep held (Event.print c) = held := rfl

theorem sinkStep_delay (held : List Nat) (ms : Nat) :
    sinkStep held (Event.delay ms) = held := rfl

theorem heldAfter_append (held : List Nat) (xs ys : List Event) :
    heldAfter held (xs ++ ys) = heldAfter (heldAfter held xs) ys := by
  simp [heldAfter, List.foldl_append]

theorem heldAfter_writeChar (c : Byte) : heldAfter [] (writeChar c) = [] :=
  (writeChar_facts c).1

theorem heldAfter_writeList (cs : List Byte) : heldAfter [] (writeList cs) = [] := by
  induction cs with
  | nil => rfl
  | cons c cs ih =>
    rw [writeList, heldAfter_append, heldAfter_writeChar, ih]

theorem heldAfter_pressKey (name : String) : heldAfter [] (pressKey name) = [] := by
  unfold pressKey
  simp only [apply_ite (heldAfter []), heldAfter_cons, heldAfter_nil, sinkStep_releaseAll,
    ite_self]

/-! ## Claims about `write` -/

set_option maxRecDepth 100000 in
theorem no_byte_is_umlaut_literal :
    ∀ c : Byte, c.val ≠ charLit "ä" ∧ c.val ≠ charLit "Ä" ∧ c.val ≠ charLit "ö" ∧
      c.val ≠ charLit "Ö" ∧ c.val ≠ charLit "ü" ∧ c.val ≠ charLit "Ü" := by
  decide

set_option maxRecDepth 100000 in
theorem no_byte_is_e_acute_literal :
    ∀ c : Byte, c.val ≠ charLit "é" ∧ c.val ≠ charLit "É" := by
  decide

/-- C1 (what the code does): no byte equals the value of an umlaut literal, so
the umlaut branches of `write` are never taken and nothing is pressed.  For the
text `ä` held in UTF-8 the two bytes `C3 A4` are printed one after the other,
each followed by the 5 ms delay, and likewise for the other five umlauts; held
as one ISO 8859-1 byte, the byte is printed. -/
theorem write_umlaut_prints_raw_bytes :
    write "ä" = [Event.print 0xC3, Event.delay 5, Event.print 0xA4, Event.delay 5] ∧
    write "Ä" = [Event.print 0xC3, Event.delay 5, Event.print 0x84, Event.delay 5] ∧
    write "ö" = [Event.print 0xC3, Event.delay 5, Event.print 0xB6, Event.delay 5] ∧
    write "Ö" = [Event.print 0xC3, Event.delay 5, Event.print 0x96, Event.delay 5] ∧
    write "ü" = [Event.print 0xC3, Event.delay 5, Event.print 0xBC, Event.delay 5] ∧
    write "Ü" = [Event.print 0xC3, Event.delay 5, Event.print 0x9C, Event.delay 5] ∧
    writeBuffer [latin1 'ä'] = [Event.print 0xE4, Event.delay 5] ∧
    writeBuffer [latin1 'Ä'] = [Event.print 0xC4, Event.delay 5] ∧
    writeBuffer [latin1 'ö'] = [Event.print 0xF6, Event.delay 5] ∧
    writeBuffer [latin1 'Ö'] = [Event.print 0xD6, Event.delay 5] ∧
    writeBuffer [latin1 'ü'] = [Event.print 0xFC, Event.delay 5] ∧
    writeBuffer [latin1 'Ü'] = [Event.print 0xDC, Event.delay 5] ∧
    (∀ c : Byte, c.val ≠ charLit "ä" ∧ c.val ≠ charLit "Ä" ∧ c.val ≠ charLit "ö" ∧
      c.val ≠ charLit "Ö" ∧ c.val ≠ charLit "ü" ∧ c.val ≠ charLit "Ü") := by
  refine ⟨?_, ?_, ?_, ?_, ?_, ?_, ?_, ?_, ?_, ?_, ?_, ?_, no_byte_is_umlaut_literal⟩ <;>
    simp only [write_eq_writeList, writeBuffer_eq_writeList] <;> decide

/-- C2 (what the code does): no byte equals the value of the `case` labels for
`é` and `É`, so the composite sequences are never emitted.  `write("É")` on the
UTF-8 text prints the bytes `C3 89` and `write("é")` prints `C3 A9`, each byte
followed by the 5 ms delay, with no Shift, AltGr, `e` or `2` pressed; held as
one ISO 8859-1 byte, the byte is printed. -/
theorem write_e_acute_prints_raw_bytes :
    write "É" = [Event.print 0xC3, Event.delay 5, Event.print 0x89, Event.delay 5] ∧
    write "é" = [Event.print 0xC3, Event.delay 5, Event.print 0xA9, Event.delay 5] ∧
    writeBuffer [latin1 'É'] = [Event.print 0xC9, Event.delay 5] ∧
    writeBuffer [latin1 'é'] = [Event.print 0xE9, Event.delay 5] ∧
    (∀ c : Byte, c.val ≠ charLit "é" ∧ c.val ≠ charLit "É") := by
  refine ⟨?_, ?_, ?_, ?_, no_byte_is_e_acute_literal⟩ <;>
    simp only [write_eq_writeList, writeBuffer_eq_writeList] <;> decide

/-- C3 (what the code does): `@` and `|` are typed as AltGr, the key,
releaseAll, then the 10 ms delay, as claimed.  The other seven characters have
multi-byte literals that no byte equals: their UTF-8 bytes are printed one by
one with 5 ms delays, and `typeSwissChar` acts on the bytes of `@` and `|`
only. -/
theorem write_altgr_only_at_and_bar :
    (keyEvents (write "@") = [Event.press 0x86, Event.press (code '2'), Event.releaseAll] ∧
      write "@" = pressAltGr '2' ++ [Event.delay 10]) ∧
    (keyEvents (write "|") = [Event.press 0x86, Event.press (code '7'), Event.releaseAll] ∧
      write "|" = pressAltGr '7' ++ [Event.delay 10]) ∧
    write "§" = [Event.print 0xC2, Event.delay 5, Event.print 0xA7, Event.delay 5] ∧
    write "€" = [Event.print 0xE2, Event.delay 5, Event.print 0x82, Event.delay 5,
      Event.print 0xAC, Event.delay 5] ∧
    write "è" = [Event.print 0xC3, Event.delay 5, Event.print 0xA8, Event.delay 5] ∧
    write "à" = [Event.print 0xC3, Event.delay 5, Event.print 0xA0, Event.delay 5] ∧
    write "È" = [Event.print 0xC3, Event.delay 5, Event.print 0x88, Event.delay 5] ∧
    write "À" = [Event.print 0xC3, Event.delay 5, Event.print 0x80, Event.delay 5] ∧
    write "Ç" = [Event.print 0xC3, Event.delay 5, Event.print 0x87, Event.delay 5] ∧
    writeBuffer [latin1 '§'] = [Event.print 0xA7, Event.delay 5] ∧
    writeBuffer [latin1 'Ç'] = [Event.print 0xC7, Event.delay 5] ∧
    (∀ c : Byte, typeSwissChar c =
      if c.val = code '@' then pressAltGr '2'
      else if c.val = code '|' then pressAltGr '7' else []) := by
  refine ⟨?_, ?_, ?_, ?_, ?_, ?_, ?_, ?_, ?_, ?_, ?_, typeSwissChar_eq⟩ <;>
    simp only [write_eq_writeList, writeBuffer_eq_writeList] <;> decide

/-- C4: started with no key held, `write` ends with no key held for every
buffer of bytes, hence for every text; `pressKey(name)` ends with no key held
for every name; and inside `write` of a concatenation the held set is empty at
the boundary after the events of the first part, wherever the text is cut. -/
theorem no_key_left_held :
    (∀ text : List Byte, heldAfter [] (writeBuffer text) = []) ∧
    (∀ text : String, heldAfter [] (write text) = []) ∧
    (∀ name : String, heldAfter [] (pressKey name) = []) ∧
    (∀ s t : List Byte, ∃ rest : List Event,
      writeBuffer (s ++ t) = writeBuffer s ++ rest ∧ rest = writeBuffer t ∧
        heldAfter [] (writeBuffer s) = []) ∧
    (∀ s t : String, ∃ rest : List Event,
      write (s ++ t) = write s ++ rest ∧ rest = write t ∧ heldAfter [] (write s) = []) := by
  refine ⟨?_, ?_, heldAfter_pressKey, ?_, ?_⟩
  · intro text
    rw [writeBuffer_eq_writeList]
    exact heldAfter_writeList text
  · intro text
    rw [write_eq_writeList]
    exact heldAfter_writeList _
  · intro s t
    refine ⟨writeBuffer t, ?_, rfl, ?_⟩
    · simp only [writeBuffer_eq_writeList, writeList_append]
    · rw [writeBuffer_eq_writeList]
      exact heldAfter_writeList s
  · intro s t
    refine ⟨write t, ?_, rfl, ?_⟩
    · simp only [write_eq_writeList, utf8Bytes_append, writeList_append]
    · rw [write_eq_writeList]
      exact heldAfter_writeList _

/-- C5: `write` maps concatenation to concatenation of traces, for buffers of
bytes and for texts; so `write("ab")` is the trace of `a` followed by the trace
of `b`, and the empty text emits nothing. -/
theorem write_append_hom :
    (∀ s t : List Byte, writeBuffer (s ++ t) = writeBuffer s ++ writeBuffer t) ∧
    (∀ s t : String, write (s ++ t) = write s ++ write t) ∧
    write "ab" = write "a" ++ write "b" ∧ write "" = [] ∧ writeBuffer [] = [] := by
  refine ⟨?_, ?_, ?_, ?_, ?_⟩
  · intro s t
    simp only [writeBuffer_eq_writeList, writeList_append]
  · intro s t
    simp only [write_eq_writeList, utf8Bytes_append, writeList_append]
  · simp only [write_eq_writeList]
    decide
  · rw [write_eq_writeList]
    rfl
  · rw [writeBuffer_eq_writeList]
    rfl

/-! ## Character codes -/

theorem uint32_le_iff_toNat (a b : UInt32) : a ≤ b ↔ a.toNat ≤ b.toNat := by
  rw [UInt32.le_def, BitVec.le_def]
  rfl

theorem char_le_iff_toNat (a b : Char) : a ≤ b ↔ a.toNat ≤ b.toNat := by
  rw [Char.le_def, uint32_le_iff_toNat]
  rfl

theorem isAlpha_toNat (c : Char) (h : c.isAlpha = true) :
    (65 ≤ c.toNat ∧ c.toNat ≤ 90) ∨ (97 ≤ c.toNat ∧ c.toNat ≤ 122) := by
  simp only [Char.isAlpha, Char.isUpper, Char.isLower, Bool.or_eq_true, Bool.and_eq_true,
    decide_eq_true_eq, ge_iff_le, uint32_le_iff_toNat] at h
  exact h

theorem isDigit_toNat (c : Char) (h : c.isDigit = true) : 48 ≤ c.toNat ∧ c.toNat ≤ 57 := by
  simp only [Char.isDigit, Bool.and_eq_true, decide_eq_true_eq, ge_iff_le,
    uint32_le_iff_toNat] at h
  exact h

theorem swapYZ_swapYZ (c : Char) : swapYZ (swapYZ c) = c := by
  unfold swapYZ
  split_ifs <;> simp_all

set_option maxRecDepth 100000 in
theorem writeChar_alnum_range :
    ∀ n < 123, (65 ≤ n ∧ n ≤ 90 ∨ 97 ≤ n ∧ n ≤ 122) ∨ (48 ≤ n ∧ n ≤ 57) →
      writeChar (toByte n) = [Event.print (code (swapYZ (Char.ofNat n))), Event.delay 5] ∧
      (swapYZ (Char.ofNat n)).isUpper = (Char.ofNat n).isUpper := by
  decide

/-- C6: for every ASCII letter or digit `c`, `write` of the one-character text
is exactly `print (swapYZ c)` followed by the 5 ms delay (so nothing is
pressed); `swapYZ` is an involution and keeps the case of `c`. -/
theorem write_letter_digit_prints_swap (c : Char)
    (h : c.isAlpha = true ∨ c.isDigit = true) :
    write (String.singleton c) = [Event.print (code (swapYZ c)), Event.delay 5] ∧
    swapYZ (swapYZ c) = c ∧ (swapYZ c).isUpper = c.isUpper := by
  have hr : (65 ≤ c.toNat ∧ c.toNat ≤ 90 ∨ 97 ≤ c.toNat ∧ c.toNat ≤ 122) ∨
      (48 ≤ c.toNat ∧ c.toNat ≤ 57) := by
    rcases h with h | h
    · exact Or.inl (isAlpha_toNat c h)
    · exact Or.inr (isDigit_toNat c h)
  have hk := writeChar_alnum_range c.toNat (by omega) hr
  rw [Char.ofNat_toNat] at hk
  rw [write_singleton_ascii c (by omega)]
  exact ⟨hk.1, swapYZ_swapYZ c, hk.2⟩

theorem write_letter_digit_prints_swap_witness :
    (write (String.singleton 'Z') = [Event.print (code (swapYZ 'Z')), Event.delay 5] ∧
      swapYZ (swapYZ 'Z') = 'Z' ∧ (swapYZ 'Z').isUpper = ('Z' : Char).isUpper) ∧
    swapYZ 'Z' = 'Y' :=
  ⟨write_letter_digit_prints_swap 'Z' (Or.inl (by decide)), by decide⟩

/-- C7: the four punctuation remaps: `-` is the `/` key alone, `_` is Shift
with `/`, `:` is Shift with `.`, `;` is Shift with `,`; each step is closed by
releaseAll and followed only by the 5 ms delay, and nothing is printed. -/
theorem write_punctuation_remaps :
    write "-" = [Event.press (code '/'), Event.releaseAll, Event.delay 5] ∧
    write "_" = [Event.press 0x81, Event.press (code '/'), Event.releaseAll, Event.delay 5] ∧
    write ":" = [Event.press 0x81, Event.press (code '.'), Event.releaseAll, Event.delay 5] ∧
    write ";" = [Event.press 0x81, Event.press (code ','), Event.releaseAll, Event.delay 5] := by
  simp only [write_eq_writeList]
  decide

/-- C9: every `char` maps to an action: for every byte the trace of `write`
contains a `press` or a `print`, and so does the trace of every one-character
text. -/
theorem write_every_char_acts :
    (∀ c : Byte, (writeBuffer [c]).any Event.isKeyDown = true) ∧
    (∀ c : Char, (write (String.singleton c)).any Event.isKeyDown = true) := by
  constructor
  · intro c
    rw [writeBuffer_singleton]
    exact (writeChar_facts c).2.2.2.2
  · intro c
    rw [write_singleton]
    cases hb : utf8EncodeChar c with
    | nil => exact absurd hb (utf8EncodeChar_ne_nil c)
    | cons b bs =>
      rw [writeList, List.any_append, (writeChar_facts b).2.2.2.2]
      rfl

/-! ## Claims about `pressKey` -/

theorem ite_cons_eq_nil {α : Type} (p : Prop) [Decidable p] (a : α) (l r : List α) :
    (if p then a :: l else r) = [] ↔ ¬ p ∧ r = [] := by
  by_cases hp : p <;> simp [hp]

theorem isOneKeyStep_step (k : Nat) :
    (([Event.press k, Event.releaseAll] : List Event) = [] ∨
      IsOneKeyStep [Event.press k, Event.releaseAll]) = True :=
  eq_true (Or.inr ⟨k, rfl⟩)

theorem pressKey_empty_or_step (name : String) :
    pressKey name = [] ∨ IsOneKeyStep (pressKey name) := by
  unfold pressKey
  simp only [apply_ite (fun es : List Event => es = [] ∨ IsOneKeyStep es), isOneKeyStep_step,
    true_or, ite_self]

theorem pressKey_eq_nil_iff (name : String) :
    pressKey name = [] ↔ ¬ matchesNamedKey (toUpperCase name) := by
  unfold pressKey matchesNamedKey namedKeyNames digitKeyNames
  simp only [ite_cons_eq_nil, List.mem_cons, List.mem_singleton, List.not_mem_nil, or_false,
    not_or, and_true, and_assoc]

/-- C10: `pressKey(name)` emits either nothing or exactly one `press` closed by
`releaseAll`; it emits nothing exactly when the uppercased name matches no entry
of the table; `NOPE` is ignored, `F5` presses `0xC6`, and `F1`..`F12` press the
consecutive codes `0xC2`..`0xCD`. -/
theorem pressKey_one_step_or_ignored :
    (∀ name : String, pressKey name = [] ∨ IsOneKeyStep (pressKey name)) ∧
    (∀ name : String, pressKey name = [] ↔ ¬ matchesNamedKey (toUpperCase name)) ∧
    pressKey "NOPE" = [] ∧
    pressKey "F5" = [Event.press 0xC6, Event.releaseAll] ∧
    ["F1", "F2", "F3", "F4", "F5", "F6", "F7", "F8", "F9", "F10", "F11", "F12"].map pressKey =
      (List.range 12).map (fun i => [Event.press (0xC2 + i), Event.releaseAll]) :=
  ⟨pressKey_empty_or_step, pressKey_eq_nil_iff, by decide, by decide, by decide⟩

/-! ## Upper-casing -/

theorem toUpper_toUpper (c : Char) : c.toUpper.toUpper = c.toUpper := by
  have key : ∀ n < 123, (Char.ofNat n).toUpper.toUpper = (Char.ofNat n).toUpper := by decide
  by_cases h : c.toNat < 123
  · have hk := key c.toNat h
    rwa [Char.ofNat_toNat] at hk
  · have hc : c.toUpper = c := by
      unfold Char.toUpper
      simp only
      rw [if_neg (by omega)]
    rw [hc, hc]

theorem toUpperCase_idem (s : String) : toUpperCase (toUpperCase s) = toUpperCase s := by
  unfold toUpperCase
  simp only [List.map_map]
  congr 1
  apply List.map_congr_left
  intro c _
  exact toUpper_toUpper c

theorem pressKey_congr (a b : String) (h : toUpperCase a = toUpperCase b) :
    pressKey a = pressKey b := by
  unfold pressKey
  simp only [h]

/-- C11: `pressKey(name)` and `pressKey(toUpperCase(name))` emit the same trace,
where `toUpperCase` maps each character through `toupper` (ASCII `a`-`z` to
`A`-`Z`, every other character fixed); so `f5`/`F5` and `Enter`/`ENTER` coincide. -/
theorem pressKey_case_insensitive :
    (∀ name : String, pressKey name = pressKey (toUpperCase name)) ∧
    (∀ c : Char, c.toUpper =
      if 97 ≤ c.toNat ∧ c.toNat ≤ 122 then Char.ofNat (c.toNat - 32) else c) ∧
    pressKey "f5" = pressKey "F5" ∧ pressKey "Enter" = pressKey "ENTER" := by
  refine ⟨?_, ?_, by decide, by decide⟩
  · intro name
    exact pressKey_congr name (toUpperCase name) (toUpperCase_idem name).symm
  · intro c
    rfl

/-! ## Codes pressed by `pressKey` -/

theorem pressedCodes_step (j : Nat) :
    pressedCodes [Event.press j, Event.releaseAll] = [j] := rfl

theorem codes_step_ge (k j : Nat) (hj : 128 ≤ j) :
    (k ∈ pressedCodes [Event.press j, Event.releaseAll] → 128 ≤ k) = True := by
  simp only [pressedCodes_step, List.mem_singleton, eq_iff_iff, iff_true]
  rintro rfl
  exact hj

theorem codes_nil_ge (k : Nat) : (k ∈ pressedCodes [] → 128 ≤ k) = True := by
  simp [pressedCodes]

theorem pressKey_codes_nonprintable (name : String) (h : ¬ isPrintableName (toUpperCase name))
    (k : Nat) : k ∈ pressedCodes (pressKey name) → 128 ≤ k := by
  simp only [isPrintableName, digitKeyNames, List.mem_cons, List.mem_singleton,
    List.not_mem_nil, or_false, not_or] at h
  unfold pressKey
  simp only [h, false_or, or_self, if_false,
    apply_ite (fun es : List Event => k ∈ pressedCodes es → 128 ≤ k),
    codes_step_ge, codes_nil_ge, Nat.reduceLeDiff, ite_self]

theorem namedKeyNames_length : ∀ n ∈ namedKeyNames, n.length ≠ 1 := by decide

theorem pressKey_single_upper (name : String)
    (h : (toUpperCase name).length = 1 ∧ 'A' ≤ charAt (toUpperCase name) 0 ∧
      charAt (toUpperCase name) 0 ≤ 'Z') :
    pressKey name = [Event.press (code (charAt (toUpperCase name) 0)), Event.releaseAll] := by
  have hne : ∀ n ∈ namedKeyNames, ¬ toUpperCase name = n := by
    intro n hn heq
    exact namedKeyNames_length n hn (heq ▸ h.1)
  simp only [namedKeyNames, List.forall_mem_cons, List.not_mem_nil, false_implies,
    implies_true, and_true] at hne
  unfold pressKey
  simp only [hne, h, false_or, or_self, if_false, and_self, if_true]

theorem pressKey_space (name : String)
    (h : toUpperCase name = "SPACE" ∨ toUpperCase name = "SPACEBAR") :
    pressKey name = [Event.press (code ' '), Event.releaseAll] := by
  rcases h with h | h
  · rw [pressKey_congr name "SPACE" (h.trans (by decide))]
    decide
  · rw [pressKey_congr name "SPACEBAR" (h.trans (by decide))]
    decide

theorem digitKeyNames_press :
    ∀ d ∈ digitKeyNames, toUpperCase d = d ∧
      pressKey d = [Event.press (code (charAt d 0)), Event.releaseAll] ∧
      48 ≤ code (charAt d 0) ∧ code (charAt d 0) ≤ 57 := by
  decide

theorem pressKey_digit (name : String) (h : toUpperCase name ∈ digitKeyNames) :
    pressKey name = [Event.press (code (charAt (toUpperCase name) 0)), Event.releaseAll] ∧
    48 ≤ code (charAt (toUpperCase name) 0) ∧ code (charAt (toUpperCase name) 0) ≤ 57 := by
  obtain ⟨h1, h2, h3⟩ := digitKeyNames_press (toUpperCase name) h
  rw [pressKey_congr name (toUpperCase name) (toUpperCase_idem name).symm]
  exact ⟨h2, h3⟩

/-- C12 (counterexample): `pressKey("A")` presses the printable code 65. -/
theorem pressKey_presses_printable_code :
    ¬ (∀ (name : String) (k : Nat), k ∈ pressedCodes (pressKey name) → 0x80 ≤ k) := by
  intro h
  have h65 := h "A" 65 (by decide)
  omega

/-- C12 (amended): with `u` the uppercased name, `pressKey` presses `0x20` and
releases when `u` is `SPACE` or `SPACEBAR`; it presses the ASCII code of the
letter (65..90) when `u` is a single letter `A`-`Z`, and the ASCII code of the
digit (48..57) when `u` is a single digit; these codes are printable.  For every
other name it either emits nothing, the name matching no table entry, or presses
exactly one code, which is `0x80` or more, and releases. -/
theorem pressKey_codes_by_name (name : String) :
    (toUpperCase name = "SPACE" ∨ toUpperCase name = "SPACEBAR" →
      pressKey name = [Event.press 0x20, Event.releaseAll]) ∧
    ((toUpperCase name).length = 1 ∧ 'A' ≤ charAt (toUpperCase name) 0 ∧
        charAt (toUpperCase name) 0 ≤ 'Z' →
      pressKey name =
          [Event.press (code (charAt (toUpperCase name) 0)), Event.releaseAll] ∧
        65 ≤ code (charAt (toUpperCase name) 0) ∧ code (charAt (toUpperCase name) 0) ≤ 90) ∧
    (toUpperCase name ∈ digitKeyNames →
      pressKey name =
          [Event.press (code (charAt (toUpperCase name) 0)), Event.releaseAll] ∧
        48 ≤ code (charAt (toUpperCase name) 0) ∧ code (charAt (toUpperCase name) 0) ≤ 57) ∧
    (¬ isPrintableName (toUpperCase name) →
      (pressKey name = [] ∧ ¬ matchesNamedKey (toUpperCase name)) ∨
        ∃ k : Nat, 0x80 ≤ k ∧ pressKey name = [Event.press k, Event.releaseAll]) := by
  refine ⟨fun h => pressKey_space name h, ?_, fun h => pressKey_digit name h, ?_⟩
  · intro h
    refine ⟨pressKey_single_upper name h, ?_, ?_⟩
    · have ha := (char_le_iff_toNat _ _).1 h.2.1
      have h65 : ('A' : Char).toNat = 65 := by decide
      unfold code
      omega
    · have hz := (char_le_iff_toNat _ _).1 h.2.2
      have h90 : ('Z' : Char).toNat = 90 := by decide
      unfold code
      omega
  · intro h
    rcases pressKey_empty_or_step name with he | ⟨k, hk⟩
    · exact Or.inl ⟨he, (pressKey_eq_nil_iff name).1 he⟩
    · refine Or.inr ⟨k, ?_, hk⟩
      apply pressKey_codes_nonprintable name h k
      rw [hk, pressedCodes_step]
      exact List.mem_singleton.2 rfl

theorem pressKey_codes_by_name_witness :
    ((toUpperCase "space" = "SPACE" ∨ toUpperCase "space" = "SPACEBAR") ∧
      pressKey "space" = [Event.press 0x20, Event.releaseAll]) ∧
    (((toUpperCase "a").length = 1 ∧ 'A' ≤ charAt (toUpperCase "a") 0 ∧
        charAt (toUpperCase "a") 0 ≤ 'Z') ∧
      pressKey "a" = [Event.press 65, Event.releaseAll]) ∧
    (toUpperCase "7" ∈ digitKeyNames ∧ pressKey "7" = [Event.press 55, Event.releaseAll]) ∧
    (¬ isPrintableName (toUpperCase "F5") ∧
      ((pressKey "F5" = [] ∧ ¬ matchesNamedKey (toUpperCase "F5")) ∨
        ∃ k : Nat, 0x80 ≤ k ∧ pressKey "F5" = [Event.press k, Event.releaseAll])) ∧
    (¬ isPrintableName (toUpperCase "NOPE") ∧
      ((pressKey "NOPE" = [] ∧ ¬ matchesNamedKey (toUpperCase "NOPE")) ∨
        ∃ k : Nat, 0x80 ≤ k ∧ pressKey "NOPE" = [Event.press k, Event.releaseAll])) :=
  ⟨⟨by decide, (pressKey_codes_by_name "space").1 (by decide)⟩,
    ⟨by decide, ((pressKey_codes_by_name "a").2.1 (by decide)).1⟩,
    ⟨by decide, ((pressKey_codes_by_name "7").2.2.1 (by decide)).1⟩,
    ⟨by unfold isPrintableName; decide,
      (pressKey_codes_by_name "F5").2.2.2 (by unfold isPrintableName; decide)⟩,
    ⟨by unfold isPrintableName; decide,
      (pressKey_codes_by_name "NOPE").2.2.2 (by unfold isPrintableName; decide)⟩⟩

set_option maxRecDepth 100000 in
theorem remap_traces_distinct_aux :
    (∀ a ∈ remapChars, ∀ b ∈ remapChars, a ≠ b →
      keyEvents (writeList (utf8EncodeChar a)) ≠ keyEvents (writeList (utf8EncodeChar b))) ∧
    (∀ a ∈ remapChars, ∀ b ∈ remapChars, a ≠ b →
      keyEvents (writeList [latin1 a]) ≠ keyEvents (writeList [latin1 b])) := by
  decide

/-- C13: any two distinct characters among `ä Ä ö Ö ü Ü - _ : ;` make `write`
emit different sequences of key events, whether the text is held in UTF-8 or as
one ISO 8859-1 byte. -/
theorem remap_traces_distinct (a b : Char) (ha : a ∈ remapChars) (hb : b ∈ remapChars)
    (hab : a ≠ b) :
    keyEvents (write (String.singleton a)) ≠ keyEvents (write (String.singleton b)) ∧
    keyEvents (writeBuffer [latin1 a]) ≠ keyEvents (writeBuffer [latin1 b]) := by
  rw [write_singleton, write_singleton, writeBuffer_eq_writeList, writeBuffer_eq_writeList]
  exact ⟨remap_traces_distinct_aux.1 a ha b hb hab, remap_traces_distinct_aux.2 a ha b hb hab⟩

theorem remap_traces_distinct_witness :
    ('ä' ∈ remapChars ∧ 'ö' ∈ remapChars ∧ 'ä' ≠ 'ö') ∧
    keyEvents (write (String.singleton 'ä')) ≠ keyEvents (write (String.singleton 'ö')) ∧
    keyEvents (writeBuffer [latin1 'ä']) ≠ keyEvents (writeBuffer [latin1 'ö']) :=
  ⟨⟨by decide, by decide, by decide⟩,
    remap_traces_distinct 'ä' 'ö' (by decide) (by decide) (by decide)⟩

theorem pressKey_alpha_range :
    ∀ n < 123, (65 ≤ n ∧ n ≤ 90 ∨ 97 ≤ n ∧ n ≤ 122) →
      pressKey (String.singleton (Char.ofNat n)) =
        [Event.press (code (Char.ofNat n).toUpper), Event.releaseAll] ∧
      65 ≤ code (Char.ofNat n).toUpper ∧ code (Char.ofNat n).toUpper ≤ 90 := by
  decide

theorem pressKey_digit_range :
    ∀ n < 58, 48 ≤ n →
      pressKey (String.singleton (Char.ofNat n)) =
        [Event.press (code (Char.ofNat n)), Event.releaseAll] := by
  decide

/-- C19: a name that is one ASCII letter, in either case, presses the code of
the uppercase letter and releases; a name that is one digit presses the code of
the digit; `z`, `Z` and `y` press `Z`, `Z` and `Y`, with no y/z swap, whereas
`write("z")` prints `y`. -/
theorem pressKey_letter_digit_untranslated :
    (∀ c : Char, c.isAlpha = true →
      pressKey (String.singleton c) = [Event.press (code c.toUpper), Event.releaseAll]) ∧
    (∀ c : Char, c.isDigit = true →
      pressKey (String.singleton c) = [Event.press (code c), Event.releaseAll]) ∧
    pressKey "z" = [Event.press (code 'Z'), Event.releaseAll] ∧
    pressKey "Z" = [Event.press (code 'Z'), Event.releaseAll] ∧
    pressKey "y" = [Event.press (code 'Y'), Event.releaseAll] ∧
    write "z" = [Event.print (code 'y'), Event.delay 5] := by
  refine ⟨?_, ?_, by decide, by decide, by decide, ?_⟩
  · intro c hc
    have hr := isAlpha_toNat c hc
    have hk := (pressKey_alpha_range c.toNat (by omega) hr).1
    rwa [Char.ofNat_toNat] at hk
  · intro c hc
    have hr := isDigit_toNat c hc
    have hk := pressKey_digit_range c.toNat (by omega) hr.1
    rwa [Char.ofNat_toNat] at hk
  · rw [write_eq_writeList]
    decide

theorem pressKey_letter_digit_untranslated_witness :
    ('q'.isAlpha = true ∧
      pressKey (String.singleton 'q') = [Event.press (code 'Q'), Event.releaseAll]) ∧
    ('7'.isDigit = true ∧
      pressKey (String.singleton '7') = [Event.press (code '7'), Event.releaseAll]) :=
  ⟨⟨by decide, pressKey_letter_digit_untranslated.1 'q' (by decide)⟩,
    ⟨by decide, pressKey_letter_digit_untranslated.2.1 '7' (by decide)⟩⟩

/-! ## Claims about `DisplayHandler` -/

/-- C14: when the handler is disabled or unavailable, each of `clear`, `update`,
`print`, `println`, `setTextSize`, `setTextColor`, `setCursor`, `clearDisplay`,
`displayUpdate`, `clearAndUpdate` and `showMessage` makes no call at all and
returns the state unchanged; `setEnabled(b)` sets `isEnabled` to `b`, makes no
call and leaves `isAvailable` and the address as they were, in every state. -/
theorem display_noop_when_off (h : DisplayHandler)
    (hoff : h.isEnabled = false ∨ h.isAvailable = false) :
    (h.clear = (h, []) ∧ h.update = (h, []) ∧
      (∀ t : String, h.print t = (h, [])) ∧ (∀ t : String, h.println t = (h, [])) ∧
      (∀ n : Nat, h.setTextSize n = (h, [])) ∧ (∀ c : Nat, h.setTextColor c = (h, [])) ∧
      (∀ x y : Int, h.setCursor x y = (h, [])) ∧ h.clearDisplay = (h, []) ∧
      h.displayUpdate = (h, []) ∧ h.clearAndUpdate = (h, []) ∧
      (∀ (m : String) (w : Int), h.showMessage m w = (h, []))) ∧
    (∀ b : Bool, (h.setEnabled b).1.isEnabled = b ∧
      (h.setEnabled b).1.isAvailable = h.isAvailable ∧
      (h.setEnabled b).1.oledAddress = h.oledAddress ∧ (h.setEnabled b).2 = []) := by
  have hg : (h.isAvailable && h.isEnabled) = false := by
    rcases hoff with he | ha
    · rw [he, Bool.and_false]
    · rw [ha, Bool.false_and]
  have hs : (!h.isEnabled || !h.isAvailable) = true := by
    rcases hoff with he | ha
    · rw [he]; rfl
    · rw [ha, Bool.not_false, Bool.or_true]
  refine ⟨⟨?_, ?_, ?_, ?_, ?_, ?_, ?_, ?_, ?_, ?_, ?_⟩, fun b => ⟨rfl, rfl, rfl, rfl⟩⟩
  · simp only [DisplayHandler.clear, hg, Bool.false_eq_true, if_false]
  · simp only [DisplayHandler.update, hg, Bool.false_eq_true, if_false]
  · intro t
    simp only [DisplayHandler.print, hg, Bool.false_eq_true, if_false]
  · intro t
    simp only [DisplayHandler.println, hg, Bool.false_eq_true, if_false]
  · intro n
    simp only [DisplayHandler.setTextSize, hg, Bool.false_eq_true, if_false]
  · intro c
    simp only [DisplayHandler.setTextColor, hg, Bool.false_eq_true, if_false]
  · intro x y
    simp only [DisplayHandler.setCursor, hg, Bool.false_eq_true, if_false]
  · simp only [DisplayHandler.clearDisplay, hg, Bool.false_eq_true, if_false]
  · simp only [DisplayHandler.displayUpdate, hg, Bool.false_eq_true, if_false]
  · simp only [DisplayHandler.clearAndUpdate, hg, Bool.false_eq_true, if_false]
  · intro m w
    simp only [DisplayHandler.showMessage, hs, if_true]

theorem display_noop_when_off_witness :
    ((DisplayHandler.create 60).isEnabled = false ∨
      (DisplayHandler.create 60).isAvailable = false) ∧
    (DisplayHandler.create 60).showMessage "hi" 1 = (DisplayHandler.create 60, []) ∧
    (DisplayHandler.create 60).clearAndUpdate = (DisplayHandler.create 60, []) :=
  ⟨Or.inr rfl,
    (display_noop_when_off (DisplayHandler.create 60) (Or.inr rfl)).1.2.2.2.2.2.2.2.2.2.2 "hi" 1,
    (display_noop_when_off (DisplayHandler.create 60) (Or.inr rfl)).1.2.2.2.2.2.2.2.2.2.1⟩

/-- C17: in a state that is enabled and available, `showMessage` first checks
the connection; when the bus has no byte available it makes no call on the
display, clears `isAvailable` and leaves `isEnabled`; when a byte is available
its calls on the display are exactly clearDisplay, setTextSize(2),
setTextColor(WHITE), setCursor(10,10), println(message), display, in that order,
and the state is unchanged. -/
theorem showMessage_rechecks (h : DisplayHandler) (message : String) (w : Int)
    (he : h.isEnabled = true) (ha : h.isAvailable = true) :
    (w = 0 →
      displayCalls (h.showMessage message w).2 = [] ∧
      (h.showMessage message w).1.isAvailable = false ∧
      (h.showMessage message w).1.isEnabled = true ∧
      (h.showMessage message w).2 = [DisplayCall.wireRequestFrom h.oledAddress 1 true]) ∧
    (w ≠ 0 →
      displayCalls (h.showMessage message w).2 =
        [DisplayCall.clearDisplay, DisplayCall.setTextSize 2,
          DisplayCall.setTextColor SSD1306_WHITE, DisplayCall.setCursor 10 10,
          DisplayCall.println message, DisplayCall.display] ∧
      (h.showMessage message w).1 = h) := by
  constructor
  · intro hw
    subst hw
    simp [DisplayHandler.showMessage, DisplayHandler.checkConnection, he, ha, displayCalls,
      DisplayCall.onDisplay]
  · intro hw
    simp [DisplayHandler.showMessage, DisplayHandler.checkConnection, he, ha, hw, displayCalls,
      DisplayCall.onDisplay]

theorem showMessage_rechecks_witness :
    (displayCalls ((DisplayHandler.mk 60 true true).showMessage "hi" 0).2 = [] ∧
      ((DisplayHandler.mk 60 true true).showMessage "hi" 0).1.isAvailable = false) ∧
    displayCalls ((DisplayHandler.mk 60 true true).showMessage "hi" 1).2 =
      [DisplayCall.clearDisplay, DisplayCall.setTextSize 2,
        DisplayCall.setTextColor SSD1306_WHITE, DisplayCall.setCursor 10 10,
        DisplayCall.println "hi", DisplayCall.display] :=
  ⟨⟨((showMessage_rechecks (DisplayHandler.mk 60 true true) "hi" 0 rfl rfl).1 rfl).1,
      ((showMessage_rechecks (DisplayHandler.mk 60 true true) "hi" 0 rfl rfl).1 rfl).2.1⟩,
    ((showMessage_rechecks (DisplayHandler.mk 60 true true) "hi" 1 rfl rfl).2 (by decide)).1⟩

theorem step_unavailable (h : DisplayHandler) (ha : h.isAvailable = false) (op : DisplayOp) :
    (h.step op).1.isAvailable = false ∧ (h.step op).2 = [] := by
  cases op <;>
    simp [DisplayHandler.step, DisplayHandler.setEnabled, DisplayHandler.checkConnection,
      DisplayHandler.clearDisplay, DisplayHandler.setTextSizeDirect,
      DisplayHandler.setTextColorDirect, DisplayHandler.setCursorDirect,
      DisplayHandler.printlnDirect, DisplayHandler.displayUpdate, DisplayHandler.clear,
      DisplayHandler.setTextSize, DisplayHandler.setTextColor, DisplayHandler.setCursor,
      DisplayHandler.print, DisplayHandler.println, DisplayHandler.update,
      DisplayHandler.showMessage, DisplayHandler.clearAndUpdate, ha]

theorem run_unavailable (ops : List DisplayOp) :
    ∀ h : DisplayHandler, h.isAvailable = false →
      (h.run ops).1.isAvailable = false ∧ (h.run ops).2 = [] := by
  induction ops with
  | nil =>
    intro h ha
    exact ⟨ha, rfl⟩
  | cons op ops ih =>
    intro h ha
    obtain ⟨h1, h2⟩ := step_unavailable h ha op
    obtain ⟨h3, h4⟩ := ih (h.step op).1 h1
    simp only [DisplayHandler.run, h2, h3, h4, List.append_nil, and_self]

/-- C20: from a state with `isAvailable = false`, any finite sequence of method
calls other than `begin` leaves `isAvailable` false and makes no call on the
display (nor on the bus); a `begin()` whose `display->begin` succeeds sets
`isAvailable`, and one whose `display->begin` fails clears it. -/
theorem unavailable_is_sticky (h : DisplayHandler) (ha : h.isAvailable = false)
    (ops : List DisplayOp) :
    ((h.run ops).1.isAvailable = false ∧ (h.run ops).2 = []) ∧
    (h.begin true).2.1.isAvailable = true ∧ (h.begin false).2.1.isAvailable = false :=
  ⟨run_unavailable ops h ha, rfl, rfl⟩

theorem unavailable_is_sticky_witness :
    (DisplayHandler.create 60).isAvailable = false ∧
    ((DisplayHandler.create 60).run
      [DisplayOp.setEnabled false, DisplayOp.checkConnection 1, DisplayOp.setEnabled true,
        DisplayOp.showMessage "hi" 1, DisplayOp.clearAndUpdate]).2 = [] :=
  ⟨rfl, (unavailable_is_sticky (DisplayHandler.create 60) rfl
    [DisplayOp.setEnabled false, DisplayOp.checkConnection 1, DisplayOp.setEnabled true,
      DisplayOp.showMessage "hi" 1, DisplayOp.clearAndUpdate]).1.2⟩

/-! ## Shape of the key steps of `write` -/

theorem endsQuiet_cons_cons (x y : Event) (es : List Event) :
    endsQuiet (x :: y :: es) = endsQuiet (y :: es) := rfl

theorem scanSteps_append (es : List Event) :
    ∀ (run : List Nat) (ys : List Event), endsQuiet es = true →
      scanSteps run (es ++ ys) = (scanSteps run es && scanSteps [] ys) := by
  induction es with
  | nil =>
    intro run ys h
    exact absurd h (by decide)
  | cons x es ih =>
    intro run ys h
    cases es with
    | nil =>
      cases x <;> simp_all [scanSteps, endsQuiet, Event.isPress]
    | cons y es =>
      rw [endsQuiet_cons_cons] at h
      cases x with
      | press k =>
        show scanSteps (run ++ [k]) ((y :: es) ++ ys) =
          (scanSteps (run ++ [k]) (y :: es) && scanSteps [] ys)
        exact ih _ ys h
      | releaseAll =>
        show ((run.isEmpty || goodRun run) && scanSteps [] ((y :: es) ++ ys)) =
          (((run.isEmpty || goodRun run) && scanSteps [] (y :: es)) && scanSteps [] ys)
        rw [ih _ ys h, Bool.and_assoc]
      | print c =>
        show (run.isEmpty && scanSteps [] ((y :: es) ++ ys)) =
          ((run.isEmpty && scanSteps [] (y :: es)) && scanSteps [] ys)
        rw [ih _ ys h, Bool.and_assoc]
      | delay ms =>
        show (run.isEmpty && scanSteps [] ((y :: es) ++ ys)) =
          ((run.isEmpty && scanSteps [] (y :: es)) && scanSteps [] ys)
        rw [ih _ ys h, Bool.and_assoc]

theorem calm_append (es : List Event) :
    ∀ (held : List Nat) (ys : List Event),
      calmAtDelayPrint held (es ++ ys) =
        (calmAtDelayPrint held es && calmAtDelayPrint (heldAfter held es) ys) := by
  induction es with
  | nil =>
    intro held ys
    simp [calmAtDelayPrint, heldAfter_nil]
  | cons x es ih =>
    intro held ys
    show ((!x.isDelayOrPrint || held.isEmpty) && calmAtDelayPrint (sinkStep held x) (es ++ ys)) =
      (((!x.isDelayOrPrint || held.isEmpty) && calmAtDelayPrint (sinkStep held x) es) &&
        calmAtDelayPrint (heldAfter (sinkStep held x) es) ys)
    rw [ih, Bool.and_assoc]

theorem scanSteps_writeList (cs : List Byte) : scanSteps [] (writeList cs) = true := by
  induction cs with
  | nil => rfl
  | cons c cs ih =>
    obtain ⟨-, h1, h2, -, -⟩ := writeChar_facts c
    rw [writeList, scanSteps_append _ _ _ h2, h1, ih]
    rfl

theorem calm_writeList (cs : List Byte) : calmAtDelayPrint [] (writeList cs) = true := by
  induction cs with
  | nil => rfl
  | cons c cs ih =>
    obtain ⟨-, -, -, h3, -⟩ := writeChar_facts c
    rw [writeList, calm_append, h3, heldAfter_writeChar, ih]
    rfl

theorem goodRun_no_altgr_then_shift (r : List Nat) (h : goodRun r = true) (i : Nat)
    (hi : r.get? i = some KEY_RIGHT_ALT) : r.get? (i + 1) ≠ some KEY_LEFT_SHIFT := by
  match r, h, hi with
  | [k], h, hi =>
    simp [List.get?]
  | [m, k], h, hi =>
    simp only [goodRun, isModifier, KEY_LEFT_SHIFT, KEY_RIGHT_ALT, KEY_LEFT_CTRL, KEY_RIGHT_GUI,
      Bool.and_eq_true, Bool.or_eq_true, beq_iff_eq, Bool.not_eq_true', Bool.and_eq_false_iff,
      decide_eq_true_eq, decide_eq_false_iff_not] at h
    match i, hi with
    | 0, hi =>
      simp only [List.get?, Option.some.injEq, KEY_LEFT_SHIFT, ne_eq]
      omega
    | 1, hi =>
      simp only [List.get?, Option.some.injEq, KEY_RIGHT_ALT] at hi
      omega
    | (j + 2), hi => simp [List.get?] at hi
  | [m, a, k], h, hi =>
    simp only [goodRun, isModifier, KEY_LEFT_SHIFT, KEY_RIGHT_ALT, KEY_LEFT_CTRL, KEY_RIGHT_GUI,
      Bool.and_eq_true, Bool.or_eq_true, beq_iff_eq, Bool.not_eq_true', Bool.and_eq_false_iff,
      decide_eq_true_eq, decide_eq_false_iff_not] at h
    match i, hi with
    | 0, hi =>
      simp only [List.get?, Option.some.injEq, KEY_RIGHT_ALT] at hi
      omega
    | 1, hi =>
      simp only [List.get?, Option.some.injEq, KEY_LEFT_SHIFT, ne_eq]
      omega
    | 2, hi =>
      simp only [List.get?, Option.some.injEq, KEY_RIGHT_ALT] at hi
      omega
    | (j + 3), hi => simp [List.get?] at hi

theorem calm_sound (pre : List Event) :
    ∀ (held : List Nat) (e : Event) (post : List Event),
      calmAtDelayPrint held (pre ++ e :: post) = true → e.isDelayOrPrint = true →
        heldAfter held pre = [] := by
  induction pre with
  | nil =>
    intro held e post h he
    simp only [List.nil_append, calmAtDelayPrint, he, Bool.not_true, Bool.false_or,
      Bool.and_eq_true, List.isEmpty_iff] at h
    rw [heldAfter_nil]
    exact h.1
  | cons x pre ih =>
    intro held e post h he
    simp only [List.cons_append, calmAtDelayPrint, Bool.and_eq_true] at h
    rw [heldAfter_cons]
    exact ih _ e post h.2 he

/-- C15: in the trace of `write`, for every buffer of bytes and so for every
text, every maximal run of consecutive presses is closed by `releaseAll` right
after its last press and is an optional Shift (`0x81`), then an optional AltGr
(`0x86`), then exactly one code that is not a modifier; in such a run AltGr is
never followed by Shift.  The scan rejects a step with AltGr before Shift and a
run cut by a delay. -/
theorem write_steps_well_formed :
    (∀ text : List Byte, stepsWellFormed (writeBuffer text) = true) ∧
    (∀ text : String, stepsWellFormed (write text) = true) ∧
    (∀ (r : List Nat) (i : Nat), goodRun r = true → r.get? i = some KEY_RIGHT_ALT →
      r.get? (i + 1) ≠ some KEY_LEFT_SHIFT) ∧
    KEY_LEFT_SHIFT = 0x81 ∧ KEY_RIGHT_ALT = 0x86 ∧
    stepsWellFormed
      [Event.press 0x86, Event.press 0x81, Event.press 50, Event.releaseAll] = false ∧
    stepsWellFormed [Event.press 50, Event.delay 5] = false := by
  refine ⟨?_, ?_, ?_, rfl, rfl, by decide, by decide⟩
  · intro text
    rw [writeBuffer_eq_writeList]
    exact scanSteps_writeList text
  · intro text
    rw [write_eq_writeList]
    exact scanSteps_writeList _
  · intro r i h hi
    exact goodRun_no_altgr_then_shift r h i hi

theorem write_steps_well_formed_witness :
    (write "@_" =
        [Event.press 0x86, Event.press 50, Event.releaseAll, Event.delay 10,
          Event.press 0x81, Event.press 47, Event.releaseAll, Event.delay 5] ∧
      stepsWellFormed (write "@_") = true) ∧
    (goodRun [0x86, 50] = true ∧ [0x86, 50].get? 0 = some KEY_RIGHT_ALT) ∧
    [0x86, 50].get? (0 + 1) ≠ some KEY_LEFT_SHIFT ∧
    stepsWellFormed (writeBuffer [latin1 'É', 0x40, 0x2D, 0x61]) = true :=
  ⟨⟨by rw [write_eq_writeList]; decide, write_steps_well_formed.2.1 "@_"⟩,
    ⟨by decide, by decide⟩,
    write_steps_well_formed.2.2.1 [0x86, 50] 0 (by decide) (by decide),
    write_steps_well_formed.1 [latin1 'É', 0x40, 0x2D, 0x61]⟩

/-- C16 (what the code does): for every byte the trace of `write` ends with its
only delay, 10 ms for the bytes of `@` and `|` and 5 ms for every other byte.
The multi-byte literals of `§ € è à È À Ç é É` are never matched, so these
characters get no 10 ms delay and `é`, `É` no settle delay between sub-steps:
held in UTF-8 each of their bytes is printed with its own 5 ms delay, held as
one ISO 8859-1 byte the delay is 5 ms. -/
theorem write_delays_per_byte :
    delays (write "é") = [5, 5] ∧ delays (write "É") = [5, 5] ∧
    delays (write "§") = [5, 5] ∧ delays (write "€") = [5, 5, 5] ∧
    delays (write "è") = [5, 5] ∧ delays (write "à") = [5, 5] ∧
    delays (write "È") = [5, 5] ∧ delays (write "À") = [5, 5] ∧
    delays (write "Ç") = [5, 5] ∧
    delays (writeBuffer [latin1 'é']) = [5] ∧ delays (writeBuffer [latin1 'É']) = [5] ∧
    delays (writeBuffer [latin1 '§']) = [5] ∧
    delays (write "@") = [10] ∧ delays (write "|") = [10] ∧
    (∀ c : Byte,
      delays (writeBuffer [c]) = [if c.val = code '@' ∨ c.val = code '|' then 10 else 5] ∧
      (writeBuffer [c]).getLast? =
        some (Event.delay (if c.val = code '@' ∨ c.val = code '|' then 10 else 5))) := by
  refine ⟨?_, ?_, ?_, ?_, ?_, ?_, ?_, ?_, ?_, ?_, ?_, ?_, ?_, ?_, ?_⟩
  case refine_15 =>
    intro c
    rw [writeBuffer_singleton]
    exact writeChar_delays c
  all_goals
    simp only [write_eq_writeList, writeBuffer_eq_writeList]
    decide

/-- C18: in the trace of `write`, started with no key held, no key is held at
any delay and at any print: whenever the trace is `pre`, then a delay or a
print `e`, then `post`, the held set after `pre` is empty; for every buffer of
bytes and so for every text. -/
theorem write_calm_at_delay_and_print :
    (∀ (text : List Byte) (pre post : List Event) (e : Event),
      writeBuffer text = pre ++ e :: post → e.isDelayOrPrint = true →
        heldAfter [] pre = []) ∧
    (∀ (text : String) (pre post : List Event) (e : Event),
      write text = pre ++ e :: post → e.isDelayOrPrint = true → heldAfter [] pre = []) := by
  have key : ∀ (text : List Byte) (pre post : List Event) (e : Event),
      writeBuffer text = pre ++ e :: post → e.isDelayOrPrint = true →
        heldAfter [] pre = [] := by
    intro text pre post e hsplit he
    have hcalm : calmAtDelayPrint [] (writeBuffer text) = true := by
      rw [writeBuffer_eq_writeList]
      exact calm_writeList text
    rw [hsplit] at hcalm
    exact calm_sound pre [] e post hcalm he
  exact ⟨key, fun text pre post e hsplit he => key (utf8Bytes text) pre post e hsplit he⟩

theorem write_calm_at_delay_and_print_witness :
    (write "@a" =
        [Event.press 0x86, Event.press 50, Event.releaseAll] ++
          Event.delay 10 :: [Event.print 97, Event.delay 5] ∧
      (Event.delay 10).isDelayOrPrint = true) ∧
    heldAfter [] [Event.press 0x86, Event.press 50, Event.releaseAll] = [] :=
  ⟨⟨by rw [write_eq_writeList]; decide, rfl⟩,
    write_calm_at_delay_and_print.2 "@a"
      [Event.press 0x86, Event.press 50, Event.releaseAll]
      [Event.print 97, Event.delay 5] (Event.delay 10)
      (by rw [write_eq_writeList]; decide) rfl⟩

end PadAvan
